import Mathlib

/-!
Verification of the `groqd` / `groq-builder` projection compiler.

This file is a shallow embedding of the projection-compiler core found in
`packages/groq-builder/src/commands/project.ts` (two versions: the newer one
with the `validationRequired` strictness check, and the older one without it)
together with the `GroqBuilder` core class (`chain`).

Modelling conventions:
* Raw query results are modelled by the JSON-like inductive `Value`.
* A `ParserFunction` (`(raw: unknown) -> Parsed`, may throw) is modelled as
  `Value → Except String Value`.
* A JavaScript object is modelled as an association list
  `List (String × Value)`; `Object.assign` is modelled by `objAssign`,
  which updates existing keys in place and appends new keys at the end,
  exactly as JavaScript does for string-keyed own enumerable properties.
* The five runtime shapes accepted for a projection-field configuration
  (checked by `instanceof GroqBuilder` / `typeof value === "string"` /
  `typeof value === "boolean"` / `Array.isArray` / `isParser`, in that
  order) are disjoint at runtime, so the dispatch cascade is modelled as an
  exhaustive match on the inductive `FieldConfig`; the final `else` branch
  of the cascade is modelled by the `FieldConfig.other` constructor, which
  carries the `typeof` category string of the unexpected value.
* `isConditional` (imported from `conditional-types`, whose source is not
  part of this snapshot) is modelled as an explicit function parameter
  `isCond : String → Bool`, so every theorem below holds for every
  conditional-key classifier.
-/

namespace Groqd

/-- JSON-like runtime values returned by the query engine. -/
inductive Value where
  | str (s : String)
  | num (n : Int)
  | bool (b : Bool)
  | null
  | arr (elems : List Value)
  | obj (fields : List (String × Value))

/-- Is this value a JavaScript array? (`Array.isArray`). -/
def Value.isArr : Value → Bool
  | .arr _ => true
  | _ => false

/-- A `ParserFunction`: takes a raw value, returns the parsed value or
fails with a descriptive error. -/
abbrev ParserFunction : Type := Value → Except String Value

/-- First-match lookup of a key in a JavaScript-object association list
(JavaScript objects never hold duplicate keys, so first match is the
unique match on real objects). -/
def lookupField (fields : List (String × Value)) (k : String) : Option Value :=
  match fields with
  | [] => none
  | (k2, v) :: rest => if k2 = k then some v else lookupField rest k

/-- Last-match lookup: the value the key holds after all entries of the
list have been written left to right (`Object.assign` semantics for a
source list that may mention a key twice). -/
def lookupLast (fields : List (String × Value)) (k : String) : Option Value :=
  lookupField fields.reverse k

/-- Write one property, JavaScript property-assignment semantics: if the
key already exists its (first, and for a JavaScript object unique)
occurrence is updated in place, keeping its position; otherwise the pair
is appended at the end. -/
def setField : List (String × Value) → String → Value → List (String × Value)
  | [], k, v => [(k, v)]
  | (k1, v1) :: rest, k, v =>
    if k1 = k then (k1, v) :: rest else (k1, v1) :: setField rest k v

/-- `Object.assign(base, source)` restricted to string keys: every pair of
`source` is written into `base` left to right. -/
def objAssign (base source : List (String × Value)) : List (String × Value) :=
  source.foldl (fun acc kv => setField acc kv.1 kv.2) base

/-- Own enumerable string-keyed properties of a value, as used by
`Object.assign` when the value appears as a source: an object contributes
its fields, a primitive contributes nothing. (JavaScript's spreading of a
string source into index keys is not modelled; the parsers fed into the
merge loop return objects.) -/
def assignSource : Value → List (String × Value)
  | .obj kvs => kvs
  | _ => []

/-- Builder options: the `validationRequired` strictness flag plus the
indentation configuration `\x7bnewLine, space\x7d` exposed by the builder's
`indentation` getter. -/
structure GroqBuilderOptions where
  validationRequired : Bool
  newLine : String
  space : String
deriving Inhabited

/-- The immutable `GroqBuilder` node: a query string, an optional composed
result parser, and the options. -/
structure GroqBuilderNode where
  query : String
  parserOf : Option ParserFunction
  options : GroqBuilderOptions

/-- Modelled from the spec: `chainParsers` (the Parser Composition
Primitive from `commands/parseUtils`, not part of this source snapshot).
Both absent gives absent; one absent gives the other unchanged; both
present composes them, second running on the first's output. -/
def chainParsers (first second : Option ParserFunction) : Option ParserFunction :=
  match first, second with
  | none, none => none
  | some p, none => some p
  | none, some p => some p
  | some p, some q => some (fun v => p v >>= q)

/-- `GroqBuilder.chain(query, parser)`: returns a new node whose query is
the old query with the fragment appended and whose parser is the chained
parser; options are carried over unchanged. -/
def GroqBuilderNode.chain (n : GroqBuilderNode) (query : String)
    (p : Option ParserFunction) : GroqBuilderNode :=
  { query := n.query ++ query
    parserOf := chainParsers n.parserOf p
    options := n.options }

/-- The five supported runtime shapes of a projection-field configuration,
plus `other` for the unexpected-value `else` branch (carrying the `typeof`
category of the offending value). Parsers given as raw validation objects
are already normalized to functions in this model (see
`normalizeValidationFunction`). -/
inductive FieldConfig where
  | nested (node : GroqBuilderNode)
  | str (s : String)
  | bool (b : Bool)
  | pair (path : String) (p : ParserFunction)
  | parserFn (p : ParserFunction)
  | other (category : String)

/-- Is this configuration the excluded `false` literal? -/
def FieldConfig.isExcluded : FieldConfig → Bool
  | .bool false => true
  | _ => false

/-- The normalized projection field: key, query fragment, optional parser. -/
structure NormalizedProjectionField where
  key : String
  query : String
  parserOf : Option ParserFunction

/-- Modelled from the spec: `normalizeValidationFunction` (from
`commands/validate-utils`, not part of this source snapshot) wraps a raw
validation object into a uniform parser-function shape; parsers in this
model are already uniform functions, so it is the identity. -/
def normalizeValidationFunction (p : ParserFunction) : ParserFunction := p

/-- The error message raised for an unexpected field-configuration value. -/
def unexpectedMessage (key category : String) : String :=
  "Unexpected value for projection key \"" ++ key ++ "\": \"" ++ category ++ "\""

/-- `normalizeProjectionField(key, fieldConfig)`: converts one
(key, configuration) pair into `some` normalized field, `none` for the
excluded boolean-`false` case, or an error for unexpected values. -/
def normalizeProjectionField (isCond : String → Bool) (key : String) :
    FieldConfig → Except String (Option NormalizedProjectionField)
  | .nested node =>
    let query :=
      if isCond key then node.query
      else if key = node.query then key
      else "\"" ++ key ++ "\": " ++ node.query
    .ok (some { key := key, query := query, parserOf := node.parserOf })
  | .str s =>
    let query := if key = s then key else "\"" ++ key ++ "\": " ++ s
    .ok (some { key := key, query := query, parserOf := none })
  | .bool b =>
    if b = false then .ok none
    else .ok (some { key := key, query := key, parserOf := none })
  | .pair path p =>
    let query := if key = path then key else "\"" ++ key ++ "\": " ++ path
    .ok (some { key := key, query := query
                parserOf := some (normalizeValidationFunction p) })
  | .parserFn p =>
    .ok (some { key := key, query := key
                parserOf := some (normalizeValidationFunction p) })
  | .other category => .error (unexpectedMessage key category)

/-- JavaScript `Array.prototype.join(sep)`: elements concatenated with the
separator between consecutive elements (empty string for an empty array). -/
def joinList (sep : String) : List String → String
  | [] => ""
  | [x] => x
  | x :: y :: rest => x ++ sep ++ joinList sep (y :: rest)

/-- Modelled from the spec: `simpleObjectParser`'s per-shape pass (the
object-shape validator from `validation/simple-validation`, not part of
this source snapshot). For each shape key: a key with a parser has its raw
value replaced by the parser's output, a key without a parser passes
through unchanged, and a key absent from the input is omitted from the
output (never defaulted). -/
def applyShape : List (String × Option ParserFunction) → List (String × Value) →
    Except String (List (String × Value))
  | [], _ => .ok []
  | (k, po) :: rest, input => do
    let tail ← applyShape rest input
    match lookupField input k with
    | none => pure tail
    | some v =>
      match po with
      | none => pure ((k, v) :: tail)
      | some p => do
        let parsed ← p v
        pure ((k, parsed) :: tail)

/-- Modelled from the spec: `simpleObjectParser` — the object-shape
validator; expects an object input and maps it through the shape via
`applyShape`. -/
def simpleObjectParser (shape : List (String × Option ParserFunction)) :
    ParserFunction := fun input =>
  match input with
  | .obj kvs => (applyShape shape kvs).map Value.obj
  | _ => .error "expected an object"

/-- Modelled from the spec: `simpleArrayParser` — the array-shape
validator; applies the item parser element-wise, preserving length and
order. -/
def simpleArrayParser (itemOf : ParserFunction) : ParserFunction := fun input =>
  match input with
  | .arr xs => (xs.mapM itemOf).map Value.arr
  | _ => .error "expected an array"

/-- The object shape built from the non-conditional normalized fields
(`Object.fromEntries(normalFields.map(f => [f.key, f.parser]))`). -/
def objectShapeOf (isCond : String → Bool)
    (fields : List NormalizedProjectionField) :
    List (String × Option ParserFunction) :=
  (fields.filter (fun f => !isCond f.key)).map (fun f => (f.key, f.parserOf))

/-- The parsers of the conditional normalized fields, nulls dropped, in
field order. -/
def condParsersOf (isCond : String → Bool)
    (fields : List NormalizedProjectionField) : List ParserFunction :=
  ((fields.filter (fun f => isCond f.key)).map (fun f => f.parserOf)).filterMap id

/-- The `combinedParser` closure of `createProjectionParser`: starting
from an empty result object, each of the parsers (the object-shape parser
over the non-conditional fields, then each conditional parser, in order)
is applied to the same raw input and its output is `Object.assign`-merged
into the accumulated result. -/
def combinedParserOf (isCond : String → Bool)
    (fields : List NormalizedProjectionField) : ParserFunction := fun input =>
  ((simpleObjectParser (objectShapeOf isCond fields) :: condParsersOf isCond fields).foldlM
      (fun (acc : List (String × Value)) (p : ParserFunction) =>
        (p input).map (fun parsed => objAssign acc (assignSource parsed)))
      ([] : List (String × Value))).map Value.obj

/-- `createProjectionParser(fields)`: `null` when no field carries a
parser; otherwise the combined parser wrapped to transparently accept
either a single object or an array of objects. -/
def createProjectionParser (isCond : String → Bool)
    (fields : List NormalizedProjectionField) : Option ParserFunction :=
  if !(fields.any (fun f => f.parserOf.isSome)) then
    none
  else
    some (fun input =>
      match input with
      | .arr xs => simpleArrayParser (combinedParserOf isCond fields) (.arr xs)
      | _ => combinedParserOf isCond fields input)

/-- Normalization pass of `project`: normalize every map entry in map
order, propagating the first configuration error, then drop the `null`
(excluded) results. -/
def normalizeFields (isCond : String → Bool)
    (pm : List (String × FieldConfig)) :
    Except String (List NormalizedProjectionField) :=
  (pm.mapM (fun kv => normalizeProjectionField isCond kv.1 kv.2)).map
    (fun xs => xs.filterMap id)

/-- The brace-block query fragment built from the field fragments:
`` \x7b`` + newline + space + fragments joined by `,`+newline+space +
newline + ``\x7d``. -/
def braceBlock (opts : GroqBuilderOptions) (queries : List String) : String :=
  " \x7b" ++ opts.newLine ++ opts.space ++
    joinList ("," ++ opts.newLine ++ opts.space) queries ++
    opts.newLine ++ "\x7d"

/-- The aggregate configuration error raised under `validationRequired`
when fields lack validation; lists every offending key, double-quoted and
comma-joined (JavaScript array-to-string interpolation). -/
def strictnessMessage (keys : List String) : String :=
  "[groq-builder] Because \x27validationRequired\x27 is enabled, " ++
    "every field must have validation (like `q.string()`), " ++
    "but the following fields are missing it: " ++
    joinList "," (keys.map (fun k => "\"" ++ k ++ "\""))

/-- The newer `project` implementation: normalize all entries, enforce the
`validationRequired` strictness check (aggregating every parserless
field), build the brace-block fragment, and chain it with the combined
projection parser. -/
def project (node : GroqBuilderNode) (isCond : String → Bool)
    (pm : List (String × FieldConfig)) : Except String GroqBuilderNode :=
  match normalizeFields isCond pm with
  | .error e => .error e
  | .ok fields =>
    if node.options.validationRequired ∧
        (fields.filter (fun f => f.parserOf.isNone)).length ≠ 0 then
      .error (strictnessMessage
        ((fields.filter (fun f => f.parserOf.isNone)).map (fun f => f.key)))
    else
      .ok (node.chain (braceBlock node.options (fields.map (fun f => f.query)))
        (createProjectionParser isCond fields))

/-- The older `createProjectionParser` (from
`packages/groq-builder/src/commands/project.ts`): identical to the newer
one except that its leaf validators are `objectValidation.object` and
`arrayValidation.array` instead of `simpleObjectParser` and
`simpleArrayParser`; both validator families are absent from this source
snapshot and are modelled from the spec's single validator contract, so
the same modelled validators appear here. -/
def createProjectionParserOld (isCond : String → Bool)
    (fields : List NormalizedProjectionField) : Option ParserFunction :=
  if !(fields.any (fun f => f.parserOf.isSome)) then
    none
  else
    some (fun input =>
      match input with
      | .arr xs => simpleArrayParser (combinedParserOf isCond fields) (.arr xs)
      | _ => combinedParserOf isCond fields input)

/-- The older `project` implementation: identical to the newer one except
that it performs no `validationRequired` strictness check. -/
def projectOld (node : GroqBuilderNode) (isCond : String → Bool)
    (pm : List (String × FieldConfig)) : Except String GroqBuilderNode :=
  match normalizeFields isCond pm with
  | .error e => .error e
  | .ok fields =>
    .ok (node.chain (braceBlock node.options (fields.map (fun f => f.query)))
      (createProjectionParserOld isCond fields))

/-! Helper lemmas about strings, association-list lookup and `Object.assign`. -/

theorem data_append (a b : String) : (a ++ b).data = a.data ++ b.data := rfl

theorem lookupField_append (l1 l2 : List (String × Value)) (k : String) :
    lookupField (l1 ++ l2) k =
      match lookupField l1 k with
      | some v => some v
      | none => lookupField l2 k := by
  induction l1 with
  | nil => simp [lookupField]
  | cons hd tl ih =>
    obtain ⟨a, b⟩ := hd
    by_cases hak : a = k
    · simp [lookupField, hak]
    · simp [lookupField, hak, ih]

theorem lookupField_setField (base : List (String × Value)) (k : String)
    (v : Value) (k2 : String) :
    lookupField (setField base k v) k2 =
      if k2 = k then some v else lookupField base k2 := by
  induction base with
  | nil =>
    by_cases hk2 : k2 = k
    · subst hk2
      simp [setField, lookupField]
    · simp [setField, lookupField, hk2, if_neg (Ne.symm hk2)]
  | cons hd tl ih =>
    obtain ⟨k1, v1⟩ := hd
    by_cases h1 : k1 = k
    · subst h1
      simp only [setField, if_pos rfl]
      by_cases hk2 : k2 = k1
      · subst hk2
        simp [lookupField]
      · simp [lookupField, if_neg (Ne.symm hk2), hk2]
    · simp only [setField, if_neg h1]
      by_cases h2 : k1 = k2
      · subst h2
        simp [lookupField, h1]
      · simp [lookupField, if_neg h2, ih]

theorem lookupField_objAssign (source : List (String × Value)) :
    ∀ (acc : List (String × Value)) (k : String),
      lookupField (objAssign acc source) k =
        match lookupLast source k with
        | some v => some v
        | none => lookupField acc k := by
  induction source with
  | nil =>
    intro acc k
    simp [objAssign, lookupLast, lookupField]
  | cons hd tl ih =>
    intro acc k
    obtain ⟨k1, v1⟩ := hd
    have hstep : objAssign acc ((k1, v1) :: tl) = objAssign (setField acc k1 v1) tl := rfl
    have hlast : lookupLast ((k1, v1) :: tl) k =
        match lookupLast tl k with
        | some v => some v
        | none => if k1 = k then some v1 else none := by
      unfold lookupLast
      simp only [List.reverse_cons]
      rw [lookupField_append]
      cases lookupField tl.reverse k <;> simp [lookupField]
    rw [hstep, ih (setField acc k1 v1) k, hlast]
    cases lookupLast tl k with
    | some v => rfl
    | none =>
      simp only []
      rw [lookupField_setField]
      by_cases hk : k = k1
      · simp [hk]
      · simp [hk, if_neg (Ne.symm hk)]

theorem chainParsers_none_right (p : Option ParserFunction) :
    chainParsers p none = p := by
  cases p <;> rfl

theorem mapM_ok_length (f : ParserFunction) :
    ∀ (xs : List Value) (ys : List Value), xs.mapM f = .ok ys →
      ys.length = xs.length := by
  intro xs
  induction xs with
  | nil =>
    intro ys h
    simp only [List.mapM_nil] at h
    cases h
    rfl
  | cons x tl ih =>
    intro ys h
    rw [List.mapM_cons] at h
    cases hx : f x with
    | error e => rw [hx] at h; exact absurd h (by simp [Bind.bind, Except.bind])
    | ok b =>
      rw [hx] at h
      cases htl : tl.mapM f with
      | error e =>
        rw [htl] at h
        exact absurd h (by simp [Bind.bind, Except.bind])
      | ok bs =>
        rw [htl] at h
        have : ys = b :: bs := by
          simpa [Bind.bind, Except.bind, Pure.pure, Except.pure] using h.symm
        subst this
        simp [ih bs htl]

theorem joinList_contains (sep : String) (parts : List String) (a : String)
    (ha : a ∈ parts) :
    ∃ l r, (joinList sep parts).data = l ++ a.data ++ r := by
  induction parts with
  | nil => cases ha
  | cons x tl ih =>
    cases tl with
    | nil =>
      have hax : a = x := by simpa using ha
      exact ⟨[], [], by simp [joinList, hax]⟩
    | cons y tl2 =>
      rcases List.mem_cons.mp ha with h1 | h2
      · refine ⟨[], (sep ++ joinList sep (y :: tl2)).data, ?_⟩
        subst h1
        simp [joinList, data_append, List.append_assoc]
      · obtain ⟨l, r, hlr⟩ := ih h2
        refine ⟨(x ++ sep).data ++ l, r, ?_⟩
        simp [joinList, data_append, hlr, List.append_assoc]

theorem normalizeProjectionField_cases (isCond : String → Bool) (k : String)
    (c : FieldConfig) (x : Option NormalizedProjectionField)
    (h : normalizeProjectionField isCond k c = .ok x) :
    (c.isExcluded = true ∧ x = none) ∨
      (c.isExcluded = false ∧ ∃ f, x = some f ∧ f.key = k) := by
  cases c with
  | nested node =>
    simp only [normalizeProjectionField] at h
    cases h
    exact Or.inr ⟨rfl, _, rfl, rfl⟩
  | str s =>
    simp only [normalizeProjectionField] at h
    cases h
    exact Or.inr ⟨rfl, _, rfl, rfl⟩
  | bool b =>
    cases b with
    | false =>
      simp only [normalizeProjectionField, if_pos rfl] at h
      cases h
      exact Or.inl ⟨rfl, rfl⟩
    | true =>
      simp only [normalizeProjectionField] at h
      rw [if_neg (by simp)] at h
      cases h
      exact Or.inr ⟨rfl, _, rfl, rfl⟩
  | pair path p =>
    simp only [normalizeProjectionField] at h
    cases h
    exact Or.inr ⟨rfl, _, rfl, rfl⟩
  | parserFn p =>
    simp only [normalizeProjectionField] at h
    cases h
    exact Or.inr ⟨rfl, _, rfl, rfl⟩
  | other category =>
    simp only [normalizeProjectionField] at h
    cases h

theorem normalizeFields_keys (isCond : String → Bool) :
    ∀ (pm : List (String × FieldConfig)) (fields : List NormalizedProjectionField),
      normalizeFields isCond pm = .ok fields →
      fields.map (fun f => f.key) =
        (pm.filter (fun kv => !kv.2.isExcluded)).map Prod.fst := by
  intro pm
  induction pm with
  | nil =>
    intro fields h
    simp only [normalizeFields, List.mapM_nil] at h
    cases h
    rfl
  | cons hd tl ih =>
    intro fields h
    obtain ⟨k, c⟩ := hd
    simp only [normalizeFields, List.mapM_cons] at h
    cases hx : normalizeProjectionField isCond k c with
    | error e =>
      rw [hx] at h
      exact absurd h (by simp [Bind.bind, Except.bind, Except.map])
    | ok x =>
      rw [hx] at h
      cases htl : tl.mapM (fun kv => normalizeProjectionField isCond kv.1 kv.2) with
      | error e =>
        rw [htl] at h
        exact absurd h (by simp [Bind.bind, Except.bind, Except.map])
      | ok xs =>
        rw [htl] at h
        have hfields : fields = (x :: xs).filterMap id := by
          simpa [Bind.bind, Except.bind, Pure.pure, Except.pure, Except.map] using h.symm
        have htail : (xs.filterMap id).map (fun f => f.key) =
            (tl.filter (fun kv => !kv.2.isExcluded)).map Prod.fst := by
          apply ih
          unfold normalizeFields
          rw [htl]
          rfl
        rcases normalizeProjectionField_cases isCond k c x hx with ⟨hex, hx0⟩ | ⟨hex, f, hx0, hkey⟩
        · subst hx0
          subst hfields
          simp [List.filter_cons, hex, htail]
        · subst hx0
          subst hfields
          simp [List.filter_cons, hex, htail, hkey]

theorem project_error_eq (node : GroqBuilderNode) (isCond : String → Bool)
    (pm : List (String × FieldConfig)) (e : String)
    (hnorm : normalizeFields isCond pm = .error e) :
    project node isCond pm = .error e := by
  unfold project
  rw [hnorm]

theorem projectOld_error_eq (node : GroqBuilderNode) (isCond : String → Bool)
    (pm : List (String × FieldConfig)) (e : String)
    (hnorm : normalizeFields isCond pm = .error e) :
    projectOld node isCond pm = .error e := by
  unfold projectOld
  rw [hnorm]

theorem project_ok_eq (node : GroqBuilderNode) (isCond : String → Bool)
    (pm : List (String × FieldConfig)) (fields : List NormalizedProjectionField)
    (hnorm : normalizeFields isCond pm = .ok fields) :
    project node isCond pm =
      if node.options.validationRequired ∧
          (fields.filter (fun f => f.parserOf.isNone)).length ≠ 0 then
        .error (strictnessMessage
          ((fields.filter (fun f => f.parserOf.isNone)).map (fun f => f.key)))
      else
        .ok (node.chain (braceBlock node.options (fields.map (fun f => f.query)))
          (createProjectionParser isCond fields)) := by
  unfold project
  rw [hnorm]

theorem projectOld_ok_eq (node : GroqBuilderNode) (isCond : String → Bool)
    (pm : List (String × FieldConfig)) (fields : List NormalizedProjectionField)
    (hnorm : normalizeFields isCond pm = .ok fields) :
    projectOld node isCond pm =
      .ok (node.chain (braceBlock node.options (fields.map (fun f => f.query)))
        (createProjectionParserOld isCond fields)) := by
  unfold projectOld
  rw [hnorm]

/-! Concrete fixtures used by the witness theorems. -/

/-- A base builder node with strictness disabled and the default
indentation (`newLine = " "`, `space = ""`, matching the test snapshots
`*[...] \x7b name, price \x7d`). -/
def wNode : GroqBuilderNode :=
  { query := "*", parserOf := none
    options := { validationRequired := false, newLine := " ", space := "" } }

/-- A base builder node with the `validationRequired` strictness flag
enabled. -/
def wStrict : GroqBuilderNode :=
  { query := "*", parserOf := none
    options := { validationRequired := true, newLine := " ", space := "" } }

/-- A concrete conditional-key classifier: exactly the key `@cond` (and
`@cond2`) are conditional. -/
def wCond : String → Bool := fun k => k = "@cond" || k = "@cond2"

/-- A concrete leaf parser: maps any value to the string `PARSED`. -/
def wP : ParserFunction := fun _ => .ok (.str "PARSED")

/-- A concrete conditional-branch parser: returns an object binding
`name` to `FROMCOND`. -/
def wCondP : ParserFunction := fun _ => .ok (.obj [("name", .str "FROMCOND")])

/-- A second conditional-branch parser: returns an object binding `name`
to `FROMCOND2`. -/
def wCondP2 : ParserFunction := fun _ => .ok (.obj [("name", .str "FROMCOND2")])

/-! The claims. -/

/-- C1: for every key and nested-builder field configuration, the
normalizer emits the nested node's raw query verbatim when the key is
conditional; the bare key when the nested node's query equals the key;
otherwise the renamed fragment `"key": query` — and in all three cases
the normalized field's parser is exactly the nested node's parser,
unchanged. -/
theorem normalizeProjectionField_nested (isCond : String → Bool) (key : String)
    (node : GroqBuilderNode) :
    normalizeProjectionField isCond key (.nested node) =
      .ok (some { key := key
                  query := if isCond key then node.query
                           else if key = node.query then key
                           else "\"" ++ key ++ "\": " ++ node.query
                  parserOf := node.parserOf }) := rfl

/-- C7: `chain(fragment, parser)` returns a new node whose query is the
receiver's query with the fragment appended on the right, whose parser is
the composition `chainParsers` of the receiver's parser with the given
one, and whose options are carried over; the receiver itself is an
immutable value and is unchanged (all operations in this embedding are
pure). The last three conjuncts characterize the composition: absent
parsers are passed through unwrapped, and two present parsers compose
left-to-right. -/
theorem chain_spec (n : GroqBuilderNode) (q : String) (p : Option ParserFunction) :
    (n.chain q p).query = n.query ++ q ∧
    (n.chain q p).parserOf = chainParsers n.parserOf p ∧
    (n.chain q p).options = n.options ∧
    (∀ po : Option ParserFunction, chainParsers po none = po) ∧
    (∀ po : Option ParserFunction, chainParsers none po = po) ∧
    (∀ f g : ParserFunction,
      chainParsers (some f) (some g) = some (fun v => f v >>= g)) := by
  refine ⟨rfl, rfl, rfl, chainParsers_none_right, ?_, fun f g => rfl⟩
  intro po
  cases po <;> rfl

/-- C8: a field configuration matching none of the five supported shapes
makes the normalizer fail with a configuration error whose message
contains both the offending key and the `typeof` category of the
unexpected value; no such value is coerced into a field or dropped. -/
theorem normalizeProjectionField_unexpected (isCond : String → Bool)
    (key category : String) :
    normalizeProjectionField isCond key (.other category) =
      .error (unexpectedMessage key category) ∧
    (∃ l r, (unexpectedMessage key category).data = l ++ key.data ++ r) ∧
    (∃ l r, (unexpectedMessage key category).data = l ++ category.data ++ r) := by
  refine ⟨rfl, ?_, ?_⟩
  · refine ⟨("Unexpected value for projection key \"" : String).data,
      ("\": \"" ++ category ++ "\"" : String).data, ?_⟩
    simp [unexpectedMessage, data_append, List.append_assoc]
  · refine ⟨("Unexpected value for projection key \"" ++ key ++ "\": \"" : String).data,
      ("\"" : String).data, ?_⟩
    simp [unexpectedMessage, data_append, List.append_assoc]

/-- C10: on any builder node whose options do not enable
`validationRequired`, the older `project` implementation and the newer
one agree exactly — same resulting node (same appended query string and
same combined parser) on every projection map, and their projection
parsers are the same function; the strictness check is the only
behavioral difference between the two versions. -/
theorem project_old_new_equivalent (node : GroqBuilderNode)
    (isCond : String → Bool) (pm : List (String × FieldConfig))
    (h : node.options.validationRequired = false) :
    projectOld node isCond pm = project node isCond pm ∧
    (∀ fields, createProjectionParserOld isCond fields =
      createProjectionParser isCond fields) := by
  constructor
  · cases hn : normalizeFields isCond pm with
    | error e =>
      rw [project_error_eq node isCond pm e hn, projectOld_error_eq node isCond pm e hn]
    | ok fields =>
      rw [projectOld_ok_eq node isCond pm fields hn, project_ok_eq node isCond pm fields hn,
        if_neg]
      · rfl
      · intro hab
        rw [h] at hab
        exact absurd hab.1 (by simp)
  · intro fields
    rfl

/-- C10 witness: the two implementations agree on a concrete non-strict
node and a concrete mixed projection map. -/
theorem project_old_new_equivalent_witness :
    wNode.options.validationRequired = false ∧
    projectOld wNode wCond [("name", .bool true), ("price", .parserFn wP)] =
      project wNode wCond [("name", .bool true), ("price", .parserFn wP)] :=
  ⟨rfl, (project_old_new_equivalent wNode wCond
    [("name", .bool true), ("price", .parserFn wP)] rfl).1⟩

/-- C2: whenever the projection compiler builds a combined parser `P`
(the fields carry at least one parser), `P` on any non-array value equals
the combined object logic applied directly, and `P` on a list equals the
combined object logic applied element-wise — on success a list of equal
length with elements in the same order. -/
theorem projectionParser_transparency (isCond : String → Bool)
    (fields : List NormalizedProjectionField) (P : ParserFunction)
    (h : createProjectionParser isCond fields = some P) :
    (∀ v : Value, v.isArr = false → P v = combinedParserOf isCond fields v) ∧
    (∀ xs : List Value,
      P (.arr xs) = (xs.mapM (combinedParserOf isCond fields)).map Value.arr) ∧
    (∀ xs ys : List Value,
      xs.mapM (combinedParserOf isCond fields) = .ok ys →
      P (.arr xs) = .ok (.arr ys) ∧ ys.length = xs.length) := by
  unfold createProjectionParser at h
  cases hany : fields.any (fun f => f.parserOf.isSome) with
  | false =>
    rw [hany] at h
    simp at h
  | true =>
    rw [hany] at h
    simp only [Bool.not_true, Bool.false_eq_true, if_false, Option.some.injEq] at h
    subst h
    refine ⟨?_, ?_, ?_⟩
    · intro v hv
      cases v <;> first
        | rfl
        | exact absurd hv (by simp [Value.isArr])
    · intro xs
      rfl
    · intro xs ys hys
      constructor
      · show (xs.mapM (combinedParserOf isCond fields)).map Value.arr = .ok (.arr ys)
        rw [hys]
        rfl
      · exact mapM_ok_length (combinedParserOf isCond fields) xs ys hys

/-- C2 witness: a concrete field list with one parser; the combined
parser applied to a concrete object and to a concrete two-element list. -/
theorem projectionParser_transparency_witness :
    createProjectionParser wCond [⟨"price", "price", some wP⟩] = some
      ((createProjectionParser wCond [⟨"price", "price", some wP⟩]).getD wP) ∧
    ((createProjectionParser wCond [⟨"price", "price", some wP⟩]).getD wP)
        (.obj [("price", .num 7)]) =
      combinedParserOf wCond [⟨"price", "price", some wP⟩] (.obj [("price", .num 7)]) ∧
    ((createProjectionParser wCond [⟨"price", "price", some wP⟩]).getD wP)
        (.arr [.obj [("price", .num 7)], .obj [("price", .num 8)]]) =
      ([Value.obj [("price", .num 7)], Value.obj [("price", .num 8)]].mapM
        (combinedParserOf wCond [⟨"price", "price", some wP⟩])).map Value.arr := by
  refine ⟨rfl, ?_, ?_⟩
  · exact (projectionParser_transparency wCond [⟨"price", "price", some wP⟩] _ rfl).1
      (.obj [("price", .num 7)]) rfl
  · exact (projectionParser_transparency wCond [⟨"price", "price", some wP⟩] _ rfl).2.1
      [.obj [("price", .num 7)], .obj [("price", .num 8)]]

/-- C3: the combined parser first runs the object-shape parser over the
non-conditional fields on the raw input, then folds over the conditional
fields' parsers in their map order, applying each to the same raw input
(not to the object parser's output) and `Object.assign`-merging its
output into the accumulated result; and a shallow merge makes the
later-written value for a shared key the one present in the result (the
second conjunct, via the general `Object.assign` lookup law). -/
theorem combinedParser_merge_order (isCond : String → Bool)
    (fields : List NormalizedProjectionField) (input : Value)
    (acc extra : List (String × Value)) (k : String) (v : Value)
    (h : lookupLast extra k = some v) :
    combinedParserOf isCond fields input =
      ((simpleObjectParser (objectShapeOf isCond fields) input).map
          (fun r0 => objAssign [] (assignSource r0)) >>= fun acc0 =>
        (condParsersOf isCond fields).foldlM
          (fun acc2 p => (p input).map
            (fun parsed => objAssign acc2 (assignSource parsed)))
          acc0).map Value.obj ∧
    lookupField (objAssign acc extra) k = some v := by
  constructor
  · rfl
  · rw [lookupField_objAssign extra acc k, h]

/-- C3 witness: two concrete conditional fields whose outputs share the
key `name`; the staged-pipeline equation at a concrete input, and the
later conditional's value winning the merge. -/
theorem combinedParser_merge_order_witness :
    combinedParserOf wCond
        [⟨"name", "name", some wP⟩, ⟨"@cond", "@cond", some wCondP⟩]
        (.obj [("name", .str "x")]) =
      ((simpleObjectParser (objectShapeOf wCond
          [⟨"name", "name", some wP⟩, ⟨"@cond", "@cond", some wCondP⟩])
          (.obj [("name", .str "x")])).map
          (fun r0 => objAssign [] (assignSource r0)) >>= fun acc0 =>
        (condParsersOf wCond
          [⟨"name", "name", some wP⟩, ⟨"@cond", "@cond", some wCondP⟩]).foldlM
          (fun acc2 p => (p (.obj [("name", .str "x")])).map
            (fun parsed => objAssign acc2 (assignSource parsed)))
          acc0).map Value.obj ∧
    lookupField (objAssign [("name", .str "FROMCOND")]
      [("name", .str "FROMCOND2")]) "name" = some (.str "FROMCOND2") :=
  ⟨(combinedParser_merge_order wCond
      [⟨"name", "name", some wP⟩, ⟨"@cond", "@cond", some wCondP⟩]
      (.obj [("name", .str "x")]) [("name", .str "FROMCOND")]
      [("name", .str "FROMCOND2")] "name" (.str "FROMCOND2") rfl).1,
   (combinedParser_merge_order wCond
      [⟨"name", "name", some wP⟩, ⟨"@cond", "@cond", some wCondP⟩]
      (.obj [("name", .str "x")]) [("name", .str "FROMCOND")]
      [("name", .str "FROMCOND2")] "name" (.str "FROMCOND2") rfl).2⟩

/-- C9 (implicit): a conditional field's parser output containing a key
that the object-shape parser (over the non-conditional fields) also
produced replaces that value in the final merged result — conditional
outputs overwrite same-named ordinary fields. -/
theorem conditional_overrides_normal_field (isCond : String → Bool)
    (fields : List NormalizedProjectionField) (input : Value)
    (robj rcond : List (String × Value)) (q : ParserFunction)
    (k : String) (v0 v1 : Value)
    (hobj : simpleObjectParser (objectShapeOf isCond fields) input = .ok (.obj robj))
    (_hval : lookupLast robj k = some v0)
    (hcond : condParsersOf isCond fields = [q])
    (hq : q input = .ok (.obj rcond))
    (hkc : lookupLast rcond k = some v1) :
    ∃ final, combinedParserOf isCond fields input = .ok (.obj final) ∧
      lookupField final k = some v1 := by
  refine ⟨objAssign (objAssign [] robj) rcond, ?_, ?_⟩
  · unfold combinedParserOf
    rw [hcond]
    simp [List.foldlM, hobj, hq, Except.map, Bind.bind, Except.bind,
      Pure.pure, Except.pure, assignSource]
  · rw [lookupField_objAssign rcond _ k, hkc]

/-- C9 witness: a concrete normal field `name` (parsed to `PARSED`) and a
concrete conditional field whose parser returns `name: FROMCOND`; the
final result binds `name` to the conditional's value. -/
theorem conditional_overrides_normal_field_witness :
    ∃ final, combinedParserOf wCond
        [⟨"name", "name", some wP⟩, ⟨"@cond", "@cond", some wCondP⟩]
        (.obj [("name", .str "x")]) = .ok (.obj final) ∧
      lookupField final "name" = some (.str "FROMCOND") :=
  conditional_overrides_normal_field wCond
    [⟨"name", "name", some wP⟩, ⟨"@cond", "@cond", some wCondP⟩]
    (.obj [("name", .str "x")]) [("name", .str "PARSED")]
    [("name", .str "FROMCOND")] wCondP "name" (.str "PARSED") (.str "FROMCOND")
    rfl rfl rfl rfl rfl

theorem strictnessMessage_contains (keys : List String) (k : String)
    (hk : k ∈ keys) :
    ∃ l r, (strictnessMessage keys).data = l ++ ("\"" ++ k ++ "\"").data ++ r := by
  have hmem : ("\"" ++ k ++ "\"") ∈ keys.map (fun k2 => "\"" ++ k2 ++ "\"") :=
    List.mem_map_of_mem _ hk
  obtain ⟨l, r, hlr⟩ :=
    joinList_contains "," (keys.map (fun k2 => "\"" ++ k2 ++ "\"")) _ hmem
  refine ⟨("[groq-builder] Because \x27validationRequired\x27 is enabled, " ++
    "every field must have validation (like `q.string()`), " ++
    "but the following fields are missing it: " : String).data ++ l, r, ?_⟩
  simp [strictnessMessage, data_append, hlr, List.append_assoc]

/-- C4: on a node with `validationRequired` enabled, when any normalized
field lacks a parser, compilation fails with the aggregate configuration
error, whose message contains every parserless field's quoted key (third
conjunct) — not just the first; when every normalized field has a parser,
compilation succeeds. -/
theorem project_strictness (node : GroqBuilderNode) (isCond : String → Bool)
    (pm : List (String × FieldConfig)) (fields : List NormalizedProjectionField)
    (hreq : node.options.validationRequired = true)
    (hnorm : normalizeFields isCond pm = .ok fields) :
    ((fields.filter (fun f => f.parserOf.isNone)).length ≠ 0 →
      project node isCond pm = .error (strictnessMessage
        ((fields.filter (fun f => f.parserOf.isNone)).map (fun f => f.key)))) ∧
    ((fields.filter (fun f => f.parserOf.isNone)).length = 0 →
      project node isCond pm =
        .ok (node.chain (braceBlock node.options (fields.map (fun f => f.query)))
          (createProjectionParser isCond fields))) ∧
    (∀ f ∈ fields.filter (fun f => f.parserOf.isNone),
      ∃ l r, (strictnessMessage
          ((fields.filter (fun f2 => f2.parserOf.isNone)).map (fun f2 => f2.key))).data
        = l ++ ("\"" ++ f.key ++ "\"").data ++ r) := by
  refine ⟨?_, ?_, ?_⟩
  · intro hlen
    rw [project_ok_eq node isCond pm fields hnorm, if_pos ⟨hreq, hlen⟩]
  · intro hlen
    rw [project_ok_eq node isCond pm fields hnorm, if_neg]
    exact fun hab => hab.2 hlen
  · intro f hf
    exact strictnessMessage_contains _ f.key (List.mem_map_of_mem _ hf)

/-- C4 witness: a strict node and a map with two parserless fields and
one parsered field; compilation fails with the message listing exactly
the keys `a` and `b`, and the quoted second offender `b` occurs in the
message text. -/
theorem project_strictness_witness :
    project wStrict wCond [("a", .bool true), ("b", .str "bb"), ("c", .parserFn wP)]
      = .error (strictnessMessage ["a", "b"]) ∧
    (∃ l r, (strictnessMessage ["a", "b"]).data = l ++ ("\"" ++ "b" ++ "\"").data ++ r) ∧
    project wStrict wCond [("c", .parserFn wP)] =
      .ok (wStrict.chain (braceBlock wStrict.options ["c"])
        (createProjectionParser wCond [⟨"c", "c", some wP⟩])) := by
  refine ⟨?_, ?_, ?_⟩
  · exact (project_strictness wStrict wCond
      [("a", .bool true), ("b", .str "bb"), ("c", .parserFn wP)]
      [⟨"a", "a", none⟩, ⟨"b", "\"b\": bb", none⟩, ⟨"c", "c", some wP⟩]
      rfl rfl).1 (by decide)
  · exact (project_strictness wStrict wCond
      [("a", .bool true), ("b", .str "bb"), ("c", .parserFn wP)]
      [⟨"a", "a", none⟩, ⟨"b", "\"b\": bb", none⟩, ⟨"c", "c", some wP⟩]
      rfl rfl).2.2 ⟨"b", "\"b\": bb", none⟩
      (List.mem_cons_of_mem _ (List.mem_cons_self _ _))
  · exact (project_strictness wStrict wCond [("c", .parserFn wP)]
      [⟨"c", "c", some wP⟩] rfl rfl).2.1 rfl

/-- C5 counterexample: the claim universally asserts that a projection
map whose normalized fields all lack parsers always compiles with a null
combined parser; but on a node with `validationRequired` enabled the
compiler instead fails with the strictness error for the nonempty
parserless map `\x7ba: true\x7d`, so no parser (null or otherwise) is
attached and query compilation does not proceed. -/
theorem project_parserless_counterexample :
    project wStrict wCond [("a", .bool true)] = .error (strictnessMessage ["a"]) := by
  rw [project_ok_eq wStrict wCond [("a", .bool true)] [⟨"a", "a", none⟩] rfl,
    if_pos ⟨rfl, by decide⟩]
  rfl

/-- C5 (amended): for a projection map none of whose normalized fields
carries a parser, provided strictness is disabled or the map normalizes
to no fields, the combined parser is null (`createProjectionParser`
returns `none`), query compilation still proceeds (the node's parser is
left unchanged by chaining `none`), and in particular the empty map
compiles to a brace block containing no fields with a null parser. -/
theorem project_parserless (node : GroqBuilderNode) (isCond : String → Bool)
    (pm : List (String × FieldConfig)) (fields : List NormalizedProjectionField)
    (hnorm : normalizeFields isCond pm = .ok fields)
    (hnp : fields.all (fun f => f.parserOf.isNone) = true)
    (hok : node.options.validationRequired = false ∨ fields = []) :
    createProjectionParser isCond fields = none ∧
    project node isCond pm =
      .ok (node.chain (braceBlock node.options (fields.map (fun f => f.query))) none) ∧
    (node.chain (braceBlock node.options (fields.map (fun f => f.query))) none).parserOf
      = node.parserOf ∧
    (pm = [] → project node isCond pm = .ok (node.chain
      (" \x7b" ++ node.options.newLine ++ node.options.space ++
        node.options.newLine ++ "\x7d") none)) := by
  have hany : fields.any (fun f => f.parserOf.isSome) = false := by
    rw [List.any_eq_false]
    intro f hf
    have := List.all_eq_true.mp hnp f hf
    simp only [Option.isNone_iff_eq_none] at this
    simp [this]
  have hnone : createProjectionParser isCond fields = none := by
    unfold createProjectionParser
    rw [hany]
    rfl
  have hproj : project node isCond pm =
      .ok (node.chain (braceBlock node.options (fields.map (fun f => f.query))) none) := by
    rw [project_ok_eq node isCond pm fields hnorm, if_neg, hnone]
    rcases hok with hv | hempty
    · intro hab
      rw [hv] at hab
      exact absurd hab.1 (by simp)
    · intro hab
      rw [hempty] at hab
      exact hab.2 (by simp)
  refine ⟨hnone, hproj, chainParsers_none_right node.parserOf, ?_⟩
  intro hempty
  subst hempty
  have hfe : fields = [] := by
    have : normalizeFields isCond [] = Except.ok ([] : List NormalizedProjectionField) := rfl
    rw [this] at hnorm
    cases hnorm
    rfl
  subst hfe
  rw [hproj]
  simp [braceBlock, joinList]

/-- C5 witness: a concrete parserless map on a non-strict node, and the
empty map on the same node. -/
theorem project_parserless_witness :
    createProjectionParser wCond [⟨"name", "name", none⟩] = none ∧
    project wNode wCond [("name", .bool true)] =
      .ok (wNode.chain (braceBlock wNode.options ["name"]) none) ∧
    project wNode wCond [] = .ok (wNode.chain
      (" \x7b" ++ wNode.options.newLine ++ wNode.options.space ++
        wNode.options.newLine ++ "\x7d") none) := by
  refine ⟨?_, ?_, ?_⟩
  · exact (project_parserless wNode wCond [("name", .bool true)]
      [⟨"name", "name", none⟩] rfl rfl (Or.inl rfl)).1
  · exact (project_parserless wNode wCond [("name", .bool true)]
      [⟨"name", "name", none⟩] rfl rfl (Or.inl rfl)).2.1
  · exact (project_parserless wNode wCond [] [] rfl rfl (Or.inl rfl)).2.2.2 rfl

/-- C6: the fields of the emitted query fragment are in bijection, in
order, with the map entries whose configuration is not the boolean
`false`: the normalized fields' keys are exactly those entries' keys in
input-map order (so their count is that of the non-`false` entries), and
on a non-strict node the compiled query appends the brace block built
from exactly those fields' fragments in that order. -/
theorem project_field_count_order (isCond : String → Bool)
    (pm : List (String × FieldConfig)) (fields : List NormalizedProjectionField)
    (hnorm : normalizeFields isCond pm = .ok fields) :
    fields.map (fun f => f.key) =
      (pm.filter (fun kv => !kv.2.isExcluded)).map Prod.fst ∧
    fields.length = (pm.filter (fun kv => !kv.2.isExcluded)).length ∧
    (∀ node : GroqBuilderNode, node.options.validationRequired = false →
      project node isCond pm =
        .ok (node.chain (braceBlock node.options (fields.map (fun f => f.query)))
          (createProjectionParser isCond fields))) := by
  have hkeys := normalizeFields_keys isCond pm fields hnorm
  refine ⟨hkeys, ?_, ?_⟩
  · have hlen := congrArg List.length hkeys
    simpa using hlen
  · intro node hv
    rw [project_ok_eq node isCond pm fields hnorm, if_neg]
    intro hab
    rw [hv] at hab
    exact absurd hab.1 (by simp)

/-- C6 witness: a concrete map with a `false` entry dropped and the rest
kept in order; the compiled query on a concrete non-strict node. -/
theorem project_field_count_order_witness :
    ([(⟨"name", "name", none⟩ : NormalizedProjectionField),
      ⟨"price", "price", some wP⟩].map (fun f => f.key) =
      ([("name", FieldConfig.bool true), ("hidden", FieldConfig.bool false),
        ("price", FieldConfig.parserFn wP)].filter
          (fun kv => !kv.2.isExcluded)).map Prod.fst) ∧
    project wNode wCond
        [("name", .bool true), ("hidden", .bool false), ("price", .parserFn wP)] =
      .ok (wNode.chain (braceBlock wNode.options ["name", "price"])
        (createProjectionParser wCond
          [⟨"name", "name", none⟩, ⟨"price", "price", some wP⟩])) :=
  ⟨(project_field_count_order wCond
      [("name", .bool true), ("hidden", .bool false), ("price", .parserFn wP)]
      [⟨"name", "name", none⟩, ⟨"price", "price", some wP⟩] rfl).1,
   (project_field_count_order wCond
      [("name", .bool true), ("hidden", .bool false), ("price", .parserFn wP)]
      [⟨"name", "name", none⟩, ⟨"price", "price", some wP⟩] rfl).2.2 wNode rfl⟩

end Groqd
